import Mathlib

/-
Verification development for the `detect_checker.py` secret-detection harness
(`src/test-detection/detect_checker.py`).  Strings are modelled as `List Char`
(Python `str` code-point sequences); functions are shallow embeddings of the
Python methods of `DetectChecker`.  Python exceptions are modelled with
`Except`; the exception classes relevant to the probe are listed in `PyExc`.
Character-level operations (`lower`, `title`) are modelled on the ASCII range,
which covers every character the harness feeds them.
-/

namespace DetectCheck

/-- Shorthand: the code points of a string literal. -/
def strL (s : String) : List Char := s.toList

/-- Python `str.isalpha`-style letter test (ASCII range, as used by `title`). -/
def asciiAlpha (c : Char) : Bool := (65 ≤ c.toNat && c.toNat ≤ 90) || (97 ≤ c.toNat && c.toNat ≤ 122)

/-- ASCII lower-casing, the effect of Python `str.lower` on the harness's data. -/
def asciiLower (c : Char) : Char :=
  match c with
  | 'A' => 'a' | 'B' => 'b' | 'C' => 'c' | 'D' => 'd' | 'E' => 'e' | 'F' => 'f' | 'G' => 'g'
  | 'H' => 'h' | 'I' => 'i' | 'J' => 'j' | 'K' => 'k' | 'L' => 'l' | 'M' => 'm' | 'N' => 'n'
  | 'O' => 'o' | 'P' => 'p' | 'Q' => 'q' | 'R' => 'r' | 'S' => 's' | 'T' => 't' | 'U' => 'u'
  | 'V' => 'v' | 'W' => 'w' | 'X' => 'x' | 'Y' => 'y' | 'Z' => 'z'
  | c => c

/-- ASCII upper-casing, the effect of Python `str.upper` on a single character. -/
def asciiUpper (c : Char) : Char :=
  match c with
  | 'a' => 'A' | 'b' => 'B' | 'c' => 'C' | 'd' => 'D' | 'e' => 'E' | 'f' => 'F' | 'g' => 'G'
  | 'h' => 'H' | 'i' => 'I' | 'j' => 'J' | 'k' => 'K' | 'l' => 'L' | 'm' => 'M' | 'n' => 'N'
  | 'o' => 'O' | 'p' => 'P' | 'q' => 'Q' | 'r' => 'R' | 's' => 'S' | 't' => 'T' | 'u' => 'U'
  | 'v' => 'V' | 'w' => 'W' | 'x' => 'X' | 'y' => 'Y' | 'z' => 'Z'
  | c => c

/-- Map `str.lower` over a string. -/
def lowerL (l : List Char) : List Char := l.map asciiLower

/-- Auxiliary state machine of Python `str.title`: the flag records whether the
previous character was a (cased) letter. -/
def pyTitleAux : Bool → List Char → List Char
  | _, [] => []
  | prevCased, c :: cs =>
    (if asciiAlpha c then (if prevCased then asciiLower c else asciiUpper c) else c)
      :: pyTitleAux (asciiAlpha c) cs

/-- Python `str.title`: each maximal run of letters starts upper-case and
continues lower-case; other characters are unchanged. -/
def pyTitle (l : List Char) : List Char := pyTitleAux false l

/-- Boolean prefix test on code-point lists. -/
def isPref : List Char → List Char → Bool
  | [], _ => true
  | _ :: _, [] => false
  | a :: as, b :: bs => a == b && isPref as bs

/-- Python `in` on strings: substring containment. -/
def containsSub (pat : List Char) : List Char → Bool
  | [] => pat.isEmpty
  | c :: cs => isPref pat (c :: cs) || containsSub pat cs

/-- Engine of Python `str.replace`: scan left to right, replacing each
non-overlapping occurrence of `pat` by `rep`.  A positive `skip` counter means
that many upcoming characters belong to an occurrence already replaced and are
consumed without being scanned or emitted; this keeps the definition
structurally recursive on the string (and hence kernel-computable). -/
def replaceA (pat rep : List Char) : Nat → List Char → List Char
  | _, [] => []
  | skip + 1, _ :: cs => replaceA pat rep skip cs
  | 0, c :: cs =>
    if isPref pat (c :: cs) && !pat.isEmpty then
      rep ++ replaceA pat rep (pat.length - 1) cs
    else
      c :: replaceA pat rep 0 cs

/-- Python `str.replace pat rep` (all occurrences, left to right). -/
def replaceL (pat rep s : List Char) : List Char := replaceA pat rep 0 s

/-- Python `"sep".join`, keeping empty pieces. -/
def joinWith (sep : List Char) : List (List Char) → List Char
  | [] => []
  | [w] => w
  | w :: ws => w ++ sep ++ joinWith sep ws

/-- `re.split` on a single-character class: cut at every separator character,
keeping empty tokens. -/
def splitSep (p : Char → Bool) : List Char → List (List Char)
  | [] => [[]]
  | c :: cs =>
    if p c then [] :: splitSep p cs
    else
      match splitSep p cs with
      | [] => [[c]]
      | t :: ts => (c :: t) :: ts

/-! ### Fixture-path generation (`DetectChecker.generate_temp_file_name`) -/

/-- The separator class of `re.split("[-_. ]", ...)`. -/
def sepChar (c : Char) : Bool := c == '-' || c == '_' || c == '.' || c == ' '

/-- Embedding of `DetectChecker.generate_temp_file_name`: split the template
name on `.` to obtain the extension (last component) and base name (the rest,
re-joined with `.`); tokenize `commit_<source>_<secret_type>` on `[-_. ]`;
for a `java` extension join the tokens via `" ".join(...).title().replace(" ", "")`
and append the base name, otherwise join with `_`, lower-case, and append
`_<base name>`; finally prefix `commits/` and append `.<extension>`. -/
def generate_temp_file_name (source secret_type template : List Char) : List Char :=
  let template_components := splitSep (fun c => c == '.') template
  let extension := template_components.getLastD []
  let file_name := joinWith ['.'] template_components.dropLast
  let temp_file_words := splitSep sepChar (strL "commit_" ++ source ++ '_' :: secret_type)
  let temp_file_name :=
    if extension = strL "java" then
      replaceL [' '] [] (pyTitle (joinWith [' '] temp_file_words)) ++ file_name
    else
      lowerL (joinWith ['_'] temp_file_words) ++ '_' :: file_name
  strL "commits/" ++ temp_file_name ++ '.' :: extension

/-! ### Template rendering (`DetectChecker._populate_templates`) -/

/-- Hexadecimal digit (lower case), as produced by CPython's escape routines. -/
def hexDigit (n : Nat) : Char :=
  match n % 16 with
  | 0 => '0' | 1 => '1' | 2 => '2' | 3 => '3' | 4 => '4' | 5 => '5' | 6 => '6' | 7 => '7'
  | 8 => '8' | 9 => '9' | 10 => 'a' | 11 => 'b' | 12 => 'c' | 13 => 'd' | 14 => 'e' | _ => 'f'

/-- One code point under Python's `unicode_escape` codec: backslash and the
control characters tab/newline/return get two-character escapes, other
non-printable or non-ASCII code points get `\xhh`, `\uhhhh` or `\Uhhhhhhhh`,
and printable ASCII passes through unchanged. -/
def pyUnicodeEscapeChar (c : Char) : List Char :=
  let n := c.toNat
  if c = '\\' then ['\\', '\\']
  else if c = '\t' then ['\\', 't']
  else if c = '\n' then ['\\', 'n']
  else if c = '\r' then ['\\', 'r']
  else if n < 32 ∨ (127 ≤ n ∧ n < 256) then ['\\', 'x', hexDigit (n / 16), hexDigit n]
  else if 256 ≤ n ∧ n < 65536 then
    ['\\', 'u', hexDigit (n / 4096), hexDigit (n / 256), hexDigit (n / 16), hexDigit n]
  else if 65536 ≤ n then
    ['\\', 'U', hexDigit (n / 268435456), hexDigit (n / 16777216), hexDigit (n / 1048576),
      hexDigit (n / 65536), hexDigit (n / 4096), hexDigit (n / 256), hexDigit (n / 16), hexDigit n]
  else [c]

/-- Concatenation of `f` over a list (`List.flatMap`, inlined for stable
kernel reduction). -/
def listConcatMap (f : Char → List Char) : List Char → List Char
  | [] => []
  | c :: cs => f c ++ listConcatMap f cs

/-- Python `value.encode("unicode_escape").decode()` on a code-point list. -/
def pyUnicodeEscape (l : List Char) : List Char := listConcatMap pyUnicodeEscapeChar l

/-- The single-line placeholder literal `%SINGLE_LINE_VARIABLE%`. -/
def singlePlaceholder : List Char :=
  ['%', 'S', 'I', 'N', 'G', 'L', 'E', '_', 'L', 'I', 'N', 'E', '_',
   'V', 'A', 'R', 'I', 'A', 'B', 'L', 'E', '%']

/-- The multi-line placeholder literal `%MULTI_LINE_VARIABLE%`. -/
def multiPlaceholder : List Char :=
  ['%', 'M', 'U', 'L', 'T', 'I', '_', 'L', 'I', 'N', 'E', '_',
   'V', 'A', 'R', 'I', 'A', 'B', 'L', 'E', '%']

/-- `multi_line` in `_populate_templates`: the raw value with quotes escaped. -/
def multiLineOf (value : List Char) : List Char := replaceL ['"'] ['\\', '"'] value

/-- `single_line` in `_populate_templates`: the value through `unicode_escape`,
then quotes escaped. -/
def singleLineOf (value : List Char) : List Char :=
  replaceL ['"'] ['\\', '"'] (pyUnicodeEscape value)

/-- The rendering step of `_populate_templates`: substitute the single-line
placeholder first, then the multi-line placeholder. -/
def renderTemplate (content value : List Char) : List Char :=
  replaceL multiPlaceholder (multiLineOf value)
    (replaceL singlePlaceholder (singleLineOf value) content)

/-! ### Cleanup (`DetectChecker.cleanup`) -/

/-- The marker string that exempts a path from cleanup and from probing. -/
def readmeMarker : List Char := strL "README.md"

/-- Embedding of `DetectChecker.cleanup`: of the files under `commits/`, those
whose path does not contain the substring `README.md` are removed. -/
def cleanupRemoved (files : List (List Char)) : List (List Char) :=
  files.filter (fun f => !(containsSub readmeMarker f))

/-! ### Probe and orchestrator state machines -/

/-- The Python exception classes distinguished by `_test_commit`'s handlers;
`other` stands for any exception outside the caught classes. -/
inductive PyExc where
  | hookExecutionError
  | gitCommandError
  | fileNotFoundError
  | other
deriving DecidableEq, Repr

/-- Git index/branch operations performed by `_test_commit`. -/
inductive GitOp where
  | add
  | commit
  | rollback
  | remove
deriving DecidableEq, Repr

/-- Outcomes of the individual git operations during one probe: `none` means
the operation succeeds, `some e` means it raises `e`.  `removeTry` is the
`index.remove` on the success path inside the `try`; `removeHook` and
`removeOther` are the `index.remove` calls inside the two `except` handlers. -/
structure ProbeEnv where
  add : Option PyExc
  commit : Option PyExc
  rollback : Option PyExc
  removeTry : Option PyExc
  removeHook : Option PyExc
  removeOther : Option PyExc
deriving DecidableEq, Repr

/-- Exception dispatch of `_test_commit`: a `HookExecutionError` runs the first
handler (unstage, verdict `true`), `GitCommandError` / `FileNotFoundError` run
the second (unstage, verdict `false`), and any other exception propagates.
An exception raised by the handler's own `index.remove` also propagates.
`tr` is the trace of git operations completed so far. -/
def dispatch (rH rO : Option PyExc) (e : PyExc) (tr : List GitOp) :
    Except PyExc Bool × List GitOp :=
  match e with
  | .hookExecutionError =>
    match rH with
    | some e2 => (.error e2, tr)
    | none => (.ok true, tr ++ [.remove])
  | .gitCommandError =>
    match rO with
    | some e2 => (.error e2, tr)
    | none => (.ok false, tr ++ [.remove])
  | .fileNotFoundError =>
    match rO with
    | some e2 => (.error e2, tr)
    | none => (.ok false, tr ++ [.remove])
  | .other => (.error .other, tr)

/-- Embedding of `DetectChecker._test_commit` over an operation-outcome
environment: stage, commit, roll the branch back, unstage — with the first
raised exception routed through `dispatch`.  Returns the (possibly
exceptional) verdict together with the trace of completed git operations. -/
def testCommit (env : ProbeEnv) : Except PyExc Bool × List GitOp :=
  match env.add with
  | some e => dispatch env.removeHook env.removeOther e []
  | none =>
    match env.commit with
    | some e => dispatch env.removeHook env.removeOther e [.add]
    | none =>
      match env.rollback with
      | some e => dispatch env.removeHook env.removeOther e [.add, .commit]
      | none =>
        match env.removeTry with
        | some e => dispatch env.removeHook env.removeOther e [.add, .commit, .rollback]
        | none => (.ok false, [.add, .commit, .rollback, .remove])

/-- The first exception raised inside `_test_commit`'s `try` block, if any. -/
def firstTryRaised (env : ProbeEnv) : Option PyExc :=
  match env.add with
  | some e => some e
  | none =>
    match env.commit with
    | some e => some e
    | none =>
      match env.rollback with
      | some e => some e
      | none => env.removeTry

/-- Errors that can abort `DetectChecker.check`: a probe exception escaping the
probing loop, the `KeyError` of `test["detected"]` in the aggregation loop, and
the `ZeroDivisionError` of the success-rate computation. -/
inductive CheckErr where
  | probeRaised (e : PyExc)
  | keyError
  | zeroDivisionError
deriving DecidableEq, Repr

/-- One entry of `self.tests`, as appended by `_populate_templates`. -/
structure Test where
  source : List Char
  secret_type : List Char
  test_file : List Char
  file_type : List Char
deriving DecidableEq, Repr

/-- A test after the probing loop: `detected = none` when the loop skipped the
fixture (its path contains `README.md`), otherwise the probe's verdict. -/
structure TestR where
  base : Test
  detected : Option Bool
deriving DecidableEq, Repr

/-- The probing loop of `check`: fixtures whose path contains `README.md` are
skipped; every other fixture is probed, its verdict recorded on the test entry
and its path appended to the `passed` or `failed` status list.  A probe
exception propagates out of the loop. -/
def runLoop (probe : List Char → Except PyExc Bool) :
    List Test → Except PyExc (List TestR × List (List Char) × List (List Char))
  | [] => .ok ([], [], [])
  | t :: ts =>
    if containsSub readmeMarker t.test_file then
      match runLoop probe ts with
      | .error e => .error e
      | .ok (rs, ps, fs) => .ok (⟨t, none⟩ :: rs, ps, fs)
    else
      match probe t.test_file with
      | .error e => .error e
      | .ok d =>
        match runLoop probe ts with
        | .error e => .error e
        | .ok (rs, ps, fs) =>
          .ok (⟨t, some d⟩ :: rs,
            (if d then t.test_file :: ps else ps),
            (if d then fs else t.test_file :: fs))

/-- One per-dimension counter triple of the aggregation loop. -/
structure StatCounts where
  passed : Nat
  failed : Nat
  total : Nat
deriving DecidableEq, Repr

/-- Bump the bucket of key `k` (insertion-ordered association list, as a
Python `dict`): `total` is always incremented, and `passed` or `failed`
according to the verdict `d`. -/
def bumpStat (d : Bool) (k : List Char) :
    List (List Char × StatCounts) → List (List Char × StatCounts)
  | [] => [(k, if d then ⟨1, 0, 1⟩ else ⟨0, 1, 1⟩)]
  | (k', c) :: rest =>
    if k' = k then
      (k',
        if d then ⟨c.passed + 1, c.failed, c.total + 1⟩
        else ⟨c.passed, c.failed + 1, c.total + 1⟩) :: rest
    else (k', c) :: bumpStat d k rest

/-- The secret-stats key `f"{test['source']}: {test['secret_type']}"`. -/
def secretKey (t : Test) : List Char := t.source ++ strL ": " ++ t.secret_type

/-- The aggregation loop of `check` over all test entries: accessing
`test["detected"]` on a skipped fixture raises a `KeyError`; otherwise both the
file-type bucket and the secret-type bucket are bumped. -/
def aggregate :
    List TestR → List (List Char × StatCounts) → List (List Char × StatCounts) →
      Except CheckErr (List (List Char × StatCounts) × List (List Char × StatCounts))
  | [], ls, ss => .ok (ls, ss)
  | r :: rs, ls, ss =>
    match r.detected with
    | none => .error .keyError
    | some d =>
      aggregate rs (bumpStat d r.base.file_type ls) (bumpStat d (secretKey r.base) ss)

/-- The data printed at the end of `check`: the two per-dimension bucket maps
and the overall stats dictionary with its success rate. -/
structure CheckOutput where
  langStats : List (List Char × StatCounts)
  secretStats : List (List Char × StatCounts)
  passed : Nat
  failed : Nat
  total : Nat
  success_rate : ℚ
deriving DecidableEq

/-- Embedding of the credential-present branch of `DetectChecker.check`, with
sandbox setup and fixture generation abstracted into the `tests` input and the
hook interaction into `probe`: run the probing loop, then the aggregation loop,
then compute the overall stats; `success_rate = 100 * passed / total` raises
`ZeroDivisionError` when `total = 0` (Python true division). -/
def check (probe : List Char → Except PyExc Bool) (tests : List Test) :
    Except CheckErr CheckOutput :=
  match runLoop probe tests with
  | .error e => .error (.probeRaised e)
  | .ok (rs, ps, fs) =>
    match aggregate rs [] [] with
    | .error e => .error e
    | .ok (ls, ss) =>
      let passed := ps.length
      let failed := fs.length
      let total := passed + failed
      if total = 0 then .error .zeroDivisionError
      else .ok ⟨ls, ss, passed, failed, total, 100 * (passed : ℚ) / (total : ℚ)⟩

/-- How many times `check` executes the sandbox teardown
`_delete_test_branch()`: the call sits directly after the probing loop with no
`try`/`finally`, so it runs exactly when the loop finishes without raising. -/
def checkTeardownCount (probe : List Char → Except PyExc Bool) (tests : List Test) : Nat :=
  match runLoop probe tests with
  | .ok _ => 1
  | .error _ => 0

/-! ### Sandbox teardown (`DetectChecker._delete_test_branch`) -/

/-- The three teardown steps of `_delete_test_branch`. -/
inductive TdStep where
  | restoreIgnore
  | resetHead
  | deleteBranch
deriving DecidableEq, Repr

/-- Outcomes of the individual teardown steps (`none` = success). -/
structure TeardownEnv where
  restoreIgnore : Option PyExc
  resetHead : Option PyExc
  deleteBranch : Option PyExc
deriving DecidableEq, Repr

/-- Embedding of `DetectChecker._delete_test_branch`: restore the ignore file
(`git reset --hard HEAD^1`), reset the head reference to the parent branch,
delete the test branch — strictly in sequence, with no exception handling, so
a raising step aborts the remaining steps.  Returns the outcome together with
the list of steps that were attempted. -/
def deleteTestBranch (env : TeardownEnv) : Except PyExc Unit × List TdStep :=
  match env.restoreIgnore with
  | some e => (.error e, [.restoreIgnore])
  | none =>
    match env.resetHead with
    | some e => (.error e, [.restoreIgnore, .resetHead])
    | none =>
      match env.deleteBranch with
      | some e => (.error e, [.restoreIgnore, .resetHead, .deleteBranch])
      | none => (.ok (), [.restoreIgnore, .resetHead, .deleteBranch])

/-! ### Specification-side definitions for the corrected path-generation claim -/

/-- Modelled from the spec's wording for the PascalCase branch, with Python
`title` semantics: each token is title-cased (first letter upper, the rest of
the letter run lower) and the tokens are concatenated with no separator. -/
def pascalJoin (words : List (List Char)) : List Char :=
  match words with
  | [] => []
  | w :: ws => pyTitle w ++ pascalJoin ws

/-- Modelled from the spec's wording for the snake_case branch: the tokens are
joined with `_` and lower-cased. -/
def snakeJoin (words : List (List Char)) : List Char := lowerL (joinWith ['_'] words)

/-- The tokenization `re.split("[-_. ]", f"commit_{source}_{secret_type}")`. -/
def tokenizeName (source secret_type : List Char) : List (List Char) :=
  splitSep sepChar (strL "commit_" ++ source ++ '_' :: secret_type)

/-! ### Concrete inputs used by witnesses and counterexamples -/

/-- A generated fixture entry with an ordinary path. -/
def tNormal : Test := ⟨strL "src", strL "key", strL "commits/commit_src_key_code.py", strL "py"⟩

/-- A generated fixture entry whose path contains `README.md` (as produced by
`generate_temp_file_name` for a template named `README.md.py`). -/
def tReadme : Test :=
  ⟨strL "src", strL "key", strL "commits/commit_src_key_README.md.py", strL "py"⟩

/-- A probe that always reports the secret as detected. -/
def probeAllTrue : List Char → Except PyExc Bool := fun _ => Except.ok true

/-- A probe that raises an uncaught exception. -/
def probeRaises : List Char → Except PyExc Bool := fun _ => Except.error PyExc.other

/-- Verdict of a probe that is known not to raise (used to state loop results). -/
def dval (probe : List Char → Except PyExc Bool) (f : List Char) : Bool :=
  match probe f with
  | .ok b => b
  | .error _ => false

/-- Sum of the `total` fields over a bucket map. -/
def sumTotal : List (List Char × StatCounts) → Nat
  | [] => 0
  | (_, c) :: rest => c.total + sumTotal rest

/-- The verdict `_test_commit` is specified to return when all raised
exceptions are of the handled classes: `true` exactly when the `try` block
raised a `HookExecutionError`. -/
def expectedVerdict (env : ProbeEnv) : Bool :=
  match firstTryRaised env with
  | some PyExc.hookExecutionError => true
  | _ => false

/-- Four fixtures with distinct ordinary paths, for the end-to-end summary
example. -/
def tests4 : List Test :=
  [⟨strL "srcA", strL "k1", strL "commits/c1.py", strL "py"⟩,
   ⟨strL "srcA", strL "k2", strL "commits/c2.py", strL "py"⟩,
   ⟨strL "srcB", strL "k3", strL "commits/c3.py", strL "py"⟩,
   ⟨strL "srcB", strL "k4", strL "commits/c4.py", strL "py"⟩]

/-- A probe that detects the secret in every fixture except `commits/c4.py`:
three of the four fixtures of `tests4` pass. -/
def probe3of4 : List Char → Except PyExc Bool :=
  fun f => Except.ok (!(f == strL "commits/c4.py"))

end DetectCheck

namespace DetectCheck

/-! ## String-operation lemmas -/

theorem isPref_append_self (a t : List Char) : isPref a (a ++ t) = true := by
  induction a with
  | nil => rfl
  | cons x xs ih => simp [isPref, ih]

theorem exists_of_isPref {a b : List Char} (h : isPref a b = true) : ∃ t, b = a ++ t := by
  induction a generalizing b with
  | nil => exact ⟨b, rfl⟩
  | cons x xs ih =>
    cases b with
    | nil => simp [isPref] at h
    | cons y ys =>
      simp only [isPref, Bool.and_eq_true, beq_iff_eq] at h
      obtain ⟨t, ht⟩ := ih h.2
      exact ⟨t, by simp [h.1, ht]⟩

theorem mem_of_isPref {a b : List Char} {c : Char} (h : isPref a b = true) (hc : c ∈ a) :
    c ∈ b := by
  obtain ⟨t, rfl⟩ := exists_of_isPref h
  exact List.mem_append_left t hc

theorem isPref_eq_false_of_missing {a b : List Char} {c : Char} (hc : c ∈ a) (hb : c ∉ b) :
    isPref a b = false := by
  cases h : isPref a b with
  | false => rfl
  | true => exact absurd (mem_of_isPref h hc) hb

theorem containsSub_exists {pat s : List Char} (h : containsSub pat s = true) :
    ∃ u v, s = u ++ pat ++ v := by
  induction s with
  | nil =>
    simp only [containsSub, List.isEmpty_iff] at h
    exact ⟨[], [], by simp [h]⟩
  | cons c cs ih =>
    simp only [containsSub, Bool.or_eq_true] at h
    rcases h with h | h
    · obtain ⟨t, ht⟩ := exists_of_isPref h
      exact ⟨[], t, by simp [ht]⟩
    · obtain ⟨u, v, huv⟩ := ih h
      exact ⟨c :: u, v, by simp [huv]⟩

theorem mem_of_containsSub {pat s : List Char} {c : Char} (h : containsSub pat s = true)
    (hc : c ∈ pat) : c ∈ s := by
  obtain ⟨u, v, rfl⟩ := containsSub_exists h
  simp [hc]

theorem containsSub_eq_false_of_missing {pat s : List Char} {c : Char} (hc : c ∈ pat)
    (hs : c ∉ s) : containsSub pat s = false := by
  cases h : containsSub pat s with
  | false => rfl
  | true => exact absurd (mem_of_containsSub h hc) hs

theorem containsSub_append_of_head_notMem {p : Char} {pt a s : List Char} (ha : p ∉ a) :
    containsSub (p :: pt) (a ++ s) = containsSub (p :: pt) s := by
  induction a with
  | nil => rfl
  | cons x xs ih =>
    have hpx : (p == x) = false := by
      simp only [beq_eq_false_iff_ne, ne_eq]
      intro he
      exact ha (by simp [he])
    simp only [List.cons_append, containsSub, isPref, hpx, Bool.false_and, Bool.false_or]
    exact ih (fun hm => ha (List.mem_cons_of_mem x hm))

theorem replaceA_drop (pat rep : List Char) (n : Nat) (s : List Char) :
    replaceA pat rep n s = replaceA pat rep 0 (s.drop n) := by
  induction s generalizing n with
  | nil => cases n <;> rfl
  | cons c cs ih =>
    cases n with
    | zero => rfl
    | succ m => simpa [replaceA] using ih m

theorem replaceL_nil (pat rep : List Char) : replaceL pat rep [] = [] := rfl

theorem replaceL_cons (pat rep : List Char) (c : Char) (cs : List Char) :
    replaceL pat rep (c :: cs) =
      if isPref pat (c :: cs) && !pat.isEmpty then
        rep ++ replaceL pat rep (cs.drop (pat.length - 1))
      else c :: replaceL pat rep cs := by
  show replaceA pat rep 0 (c :: cs) = _
  rw [replaceA, replaceA_drop]
  rfl

theorem replaceL_of_not_contains {pat s : List Char} (rep : List Char)
    (h : containsSub pat s = false) : replaceL pat rep s = s := by
  induction s with
  | nil => rfl
  | cons c cs ih =>
    simp only [containsSub, Bool.or_eq_false_iff] at h
    rw [replaceL_cons, h.1]
    simp [ih h.2]

theorem replaceL_append_of_head_notMem {p : Char} {pt a s : List Char} (rep : List Char)
    (ha : p ∉ a) : replaceL (p :: pt) rep (a ++ s) = a ++ replaceL (p :: pt) rep s := by
  induction a with
  | nil => rfl
  | cons x xs ih =>
    have hpx : (p == x) = false := by
      simp only [beq_eq_false_iff_ne, ne_eq]
      intro he
      exact ha (by simp [he])
    rw [List.cons_append, replaceL_cons]
    have hc : (isPref (p :: pt) (x :: (xs ++ s)) && !(p :: pt).isEmpty) = false := by
      simp [isPref, hpx]
    rw [hc]
    simp only [Bool.false_eq_true, if_false]
    rw [ih (fun hm => ha (List.mem_cons_of_mem x hm))]
    simp

theorem replaceL_append_self {p : Char} {pt : List Char} (rep s : List Char) :
    replaceL (p :: pt) rep ((p :: pt) ++ s) = rep ++ replaceL (p :: pt) rep s := by
  rw [List.cons_append, replaceL_cons]
  have h1 : isPref (p :: pt) (p :: (pt ++ s)) = true := isPref_append_self _ _
  simp only [h1, List.isEmpty_cons, Bool.not_false, Bool.and_self, if_true,
    List.length_cons, Nat.add_sub_cancel, List.drop_left]

theorem mem_of_mem_replaceA {pat rep : List Char} {c : Char} :
    ∀ {n : Nat} {s : List Char}, c ∈ replaceA pat rep n s → c ∈ rep ∨ c ∈ s := by
  intro n s
  induction s generalizing n with
  | nil => intro h; cases n <;> simp [replaceA] at h
  | cons x cs ih =>
    intro h
    cases n with
    | succ m =>
      rw [replaceA] at h
      rcases ih h with h' | h'
      · exact Or.inl h'
      · exact Or.inr (List.mem_cons_of_mem x h')
    | zero =>
      rw [replaceA] at h
      by_cases hc : isPref pat (x :: cs) && !pat.isEmpty
      · rw [if_pos hc, List.mem_append] at h
        rcases h with h' | h'
        · exact Or.inl h'
        · rcases ih h' with h'' | h''
          · exact Or.inl h''
          · exact Or.inr (List.mem_cons_of_mem x h'')
      · rw [if_neg hc, List.mem_cons] at h
        rcases h with h' | h'
        · exact Or.inr (by simp [h'])
        · rcases ih h' with h'' | h''
          · exact Or.inl h''
          · exact Or.inr (List.mem_cons_of_mem x h'')

theorem mem_of_mem_replaceL {pat rep s : List Char} {c : Char}
    (h : c ∈ replaceL pat rep s) : c ∈ rep ∨ c ∈ s :=
  mem_of_mem_replaceA h

/-! ## Lemmas about tokenization, joining and title-casing -/

theorem asciiLower_eq_space {c : Char} (h : asciiLower c = ' ') : c = ' ' := by
  unfold asciiLower at h
  split at h
  all_goals first
    | exact absurd h (by decide)
    | exact h

theorem asciiUpper_eq_space {c : Char} (h : asciiUpper c = ' ') : c = ' ' := by
  unfold asciiUpper at h
  split at h
  all_goals first
    | exact absurd h (by decide)
    | exact h

theorem pyTitleAux_notMem_space {w : List Char} (hw : ' ' ∉ w) :
    ∀ b, ' ' ∉ pyTitleAux b w := by
  induction w with
  | nil => intro b h; simp [pyTitleAux] at h
  | cons c cs ih =>
    intro b h
    have hc : c ≠ ' ' := fun he => hw (by simp [he])
    have hcs : ' ' ∉ cs := fun hm => hw (List.mem_cons_of_mem c hm)
    rw [pyTitleAux, List.mem_cons] at h
    rcases h with h | h
    · by_cases ha : asciiAlpha c
      · rw [if_pos ha] at h
        by_cases hb : b
        · rw [if_pos hb] at h
          exact hc (asciiLower_eq_space h.symm)
        · rw [if_neg hb] at h
          exact hc (asciiUpper_eq_space h.symm)
      · rw [if_neg ha] at h
        exact hc h.symm
    · exact ih hcs (asciiAlpha c) h

theorem pyTitleAux_append_space (ys : List Char) :
    ∀ (xs : List Char) (b : Bool),
      pyTitleAux b (xs ++ ' ' :: ys) = pyTitleAux b xs ++ ' ' :: pyTitleAux false ys := by
  intro xs
  induction xs with
  | nil =>
    intro b
    simp [pyTitleAux, show asciiAlpha ' ' = false from rfl]
  | cons x xs ih =>
    intro b
    simp only [List.cons_append, pyTitleAux]
    rw [show xs.append (' ' :: ys) = xs ++ ' ' :: ys from rfl, ih (asciiAlpha x)]

theorem splitSep_ne_nil (p : Char → Bool) (l : List Char) : splitSep p l ≠ [] := by
  induction l with
  | nil => simp [splitSep]
  | cons c cs ih =>
    by_cases hc : p c
    · simp [splitSep, hc]
    · cases h : splitSep p cs with
      | nil => exact absurd h ih
      | cons t ts => simp [splitSep, hc, h]

theorem splitSep_no_sep {p : Char → Bool} {l : List Char} (hl : ∀ c ∈ l, p c = false) :
    splitSep p l = [l] := by
  induction l with
  | nil => rfl
  | cons c cs ih =>
    have hc : p c = false := hl c (by simp)
    have hcs : splitSep p cs = [cs] := ih (fun x hx => hl x (List.mem_cons_of_mem c hx))
    simp [splitSep, hc, hcs]

theorem splitSep_append_sep (p : Char → Bool) (a : List Char) (hl : ∀ c ∈ a, p c = false)
    (c : Char) (hc : p c = true) (b : List Char) :
    splitSep p (a ++ c :: b) = a :: splitSep p b := by
  induction a with
  | nil => simp [splitSep, hc]
  | cons x xs ih =>
    have hx : p x = false := hl x (by simp)
    have hxs : splitSep p (xs ++ c :: b) = xs :: splitSep p b :=
      ih (fun y hy => hl y (List.mem_cons_of_mem x hy))
    simp [splitSep, hx, hxs]

theorem splitSep_tokens_no_sep {p : Char → Bool} :
    ∀ {l : List Char}, ∀ w ∈ splitSep p l, ∀ c ∈ w, p c = false := by
  intro l
  induction l with
  | nil =>
    intro w hw c hc
    simp only [splitSep, List.mem_singleton] at hw
    subst hw
    simp at hc
  | cons x xs ih =>
    intro w hw c hc
    by_cases hx : p x
    · rw [splitSep, if_pos hx, List.mem_cons] at hw
      rcases hw with hw | hw
      · subst hw; simp at hc
      · exact ih w hw c hc
    · cases h : splitSep p xs with
      | nil => exact absurd h (splitSep_ne_nil p xs)
      | cons t ts =>
        rw [splitSep, if_neg hx, h, List.mem_cons] at hw
        rcases hw with hw | hw
        · subst hw
          rcases List.mem_cons.mp hc with hc | hc
          · subst hc
            exact Bool.of_not_eq_true hx
          · exact ih t (by simp [h]) c hc
        · exact ih w (by simp [h, hw]) c hc

theorem joinWith_cons₂ (sep a b : List Char) (r : List (List Char)) :
    joinWith sep (a :: b :: r) = a ++ sep ++ joinWith sep (b :: r) := rfl

/-- The `" ".join(words).title().replace(" ", "")` pipeline of the `.java`
branch equals the spec-side PascalCase join, provided no token contains a
space (which `splitSep` guarantees). -/
theorem javaJoin_eq_pascalJoin :
    ∀ (ws : List (List Char)), (∀ w ∈ ws, ' ' ∉ w) →
      replaceL [' '] [] (pyTitle (joinWith [' '] ws)) = pascalJoin ws := by
  intro ws
  induction ws with
  | nil => intro _; rfl
  | cons w ws ih =>
    intro hw
    cases ws with
    | nil =>
      have h1 : ' ' ∉ pyTitle w := pyTitleAux_notMem_space (hw w (by simp)) false
      have h2 : containsSub [' '] (pyTitle w) = false :=
        containsSub_eq_false_of_missing (by simp) h1
      rw [show joinWith [' '] [w] = w from rfl, pascalJoin, pascalJoin,
        replaceL_of_not_contains _ h2, List.append_nil]
    | cons w' ws' =>
      have hsp : ' ' ∉ pyTitle w := pyTitleAux_notMem_space (hw w (by simp)) false
      rw [joinWith_cons₂, List.append_assoc, List.singleton_append]
      rw [show pyTitle (w ++ ' ' :: joinWith [' '] (w' :: ws')) =
            pyTitle w ++ ' ' :: pyTitleAux false (joinWith [' '] (w' :: ws')) from
          pyTitleAux_append_space _ w false]
      rw [replaceL_append_of_head_notMem _ hsp]
      rw [show (' ' :: pyTitleAux false (joinWith [' '] (w' :: ws'))) =
            [' '] ++ pyTitleAux false (joinWith [' '] (w' :: ws')) from rfl]
      rw [replaceL_append_self]
      rw [show pyTitleAux false (joinWith [' '] (w' :: ws')) =
            pyTitle (joinWith [' '] (w' :: ws')) from rfl]
      rw [ih (fun x hx => hw x (List.mem_cons_of_mem w hx))]
      rfl

theorem notDot_of_notSep {c : Char} (h : sepChar c = false) : (c == '.') = false := by
  simp only [sepChar, Bool.or_eq_false_iff] at h
  exact h.1.2

theorem notSpace_of_notSep {c : Char} (h : sepChar c = false) : c ≠ ' ' := by
  simp only [sepChar, Bool.or_eq_false_iff] at h
  exact beq_eq_false_iff_ne.mp h.2

theorem tokenizeName_no_space (source st : List Char) :
    ∀ w ∈ tokenizeName source st, ' ' ∉ w := by
  intro w hw hsp
  exact notSpace_of_notSep (splitSep_tokens_no_sep w hw ' ' hsp) rfl

/-- General form of the `.java` branch of `generate_temp_file_name`: for a
template `<base>.java` whose base name contains no separator character, the
generated path is `commits/` ++ the PascalCase join of the tokens of
`commit_<source>_<secret_type>` ++ the base name ++ `.java`. -/
theorem generate_java (source st base : List Char) (hbase : ∀ c ∈ base, sepChar c = false) :
    generate_temp_file_name source st (base ++ strL ".java")
      = strL "commits/" ++ pascalJoin (tokenizeName source st) ++ base ++ strL ".java" := by
  have hdot : ∀ c ∈ base, (fun c => c == '.') c = false :=
    fun c hc => notDot_of_notSep (hbase c hc)
  have h1 : splitSep (fun c => c == '.') (base ++ '.' :: strL "java")
      = base :: splitSep (fun c => c == '.') (strL "java") :=
    splitSep_append_sep (fun c => c == '.') base hdot '.' rfl (strL "java")
  have h2 : splitSep (fun c => c == '.') (strL "java") = [strL "java"] :=
    splitSep_no_sep (by decide)
  have hsplit : splitSep (fun c => c == '.') (base ++ strL ".java") = [base, strL "java"] := by
    rw [show (strL ".java" : List Char) = '.' :: strL "java" from rfl, h1, h2]
  simp only [generate_temp_file_name, hsplit]
  rw [show ([base, strL "java"] : List (List Char)).getLastD [] = strL "java" from rfl]
  rw [if_pos rfl]
  rw [show ([base, strL "java"] : List (List Char)).dropLast = [base] from rfl]
  rw [show joinWith ['.'] [base] = base from rfl]
  rw [show splitSep sepChar (strL "commit_" ++ source ++ '_' :: st)
        = tokenizeName source st from rfl]
  rw [javaJoin_eq_pascalJoin _ (tokenizeName_no_space source st)]
  simp [List.append_assoc, show ('.' :: strL "java" : List Char) = strL ".java" from rfl]

/-- General form of the non-`.java` branch for a `.py` template: the path is
`commits/` ++ the lower-cased `_`-join of the tokens ++ `_` ++ the base name
++ `.py`. -/
theorem generate_py (source st base : List Char) (hbase : ∀ c ∈ base, sepChar c = false) :
    generate_temp_file_name source st (base ++ strL ".py")
      = strL "commits/" ++ snakeJoin (tokenizeName source st) ++ '_' :: (base ++ strL ".py") := by
  have hdot : ∀ c ∈ base, (fun c => c == '.') c = false :=
    fun c hc => notDot_of_notSep (hbase c hc)
  have h1 : splitSep (fun c => c == '.') (base ++ '.' :: strL "py")
      = base :: splitSep (fun c => c == '.') (strL "py") :=
    splitSep_append_sep (fun c => c == '.') base hdot '.' rfl (strL "py")
  have h2 : splitSep (fun c => c == '.') (strL "py") = [strL "py"] :=
    splitSep_no_sep (by decide)
  have hsplit : splitSep (fun c => c == '.') (base ++ strL ".py") = [base, strL "py"] := by
    rw [show (strL ".py" : List Char) = '.' :: strL "py" from rfl, h1, h2]
  simp only [generate_temp_file_name, hsplit]
  rw [show ([base, strL "py"] : List (List Char)).getLastD [] = strL "py" from rfl]
  rw [if_neg (by decide)]
  rw [show ([base, strL "py"] : List (List Char)).dropLast = [base] from rfl]
  rw [show joinWith ['.'] [base] = base from rfl]
  rw [show splitSep sepChar (strL "commit_" ++ source ++ '_' :: st)
        = tokenizeName source st from rfl]
  rw [show lowerL (joinWith ['_'] (tokenizeName source st))
        = snakeJoin (tokenizeName source st) from rfl]
  simp [List.append_assoc, show ('.' :: strL "py" : List Char) = strL ".py" from rfl]

/-! ## Lemmas about escaping and template rendering -/

theorem isPref_cons (a : Char) (as : List Char) (b : Char) (bs : List Char) :
    isPref (a :: as) (b :: bs) = ((a == b) && isPref as bs) := rfl

theorem containsSub_cons (pat : List Char) (c : Char) (cs : List Char) :
    containsSub pat (c :: cs) = (isPref pat (c :: cs) || containsSub pat cs) := rfl

theorem hexDigit_ne_newline (n : Nat) : hexDigit n ≠ '\n' := by
  unfold hexDigit
  split <;> decide

theorem hexDigit_ne_percent (n : Nat) : hexDigit n ≠ '%' := by
  unfold hexDigit
  split <;> decide

theorem mem_listConcatMap {f : Char → List Char} {c : Char} :
    ∀ {l : List Char}, c ∈ listConcatMap f l ↔ ∃ x ∈ l, c ∈ f x := by
  intro l
  induction l with
  | nil => simp [listConcatMap]
  | cons x xs ih => simp [listConcatMap, List.mem_append, ih]

theorem newline_notMem_escapeChar (c : Char) : '\n' ∉ pyUnicodeEscapeChar c := by
  intro h
  simp only [pyUnicodeEscapeChar] at h
  split_ifs at h with h1 h2 h3 h4 h5 h6 h7
  · exact absurd h (by decide)
  · exact absurd h (by decide)
  · exact absurd h (by decide)
  · exact absurd h (by decide)
  · simp only [List.mem_cons, List.not_mem_nil, or_false] at h
    rcases h with h | h | h | h
    · exact absurd h (by decide)
    · exact absurd h (by decide)
    · exact hexDigit_ne_newline _ h.symm
    · exact hexDigit_ne_newline _ h.symm
  · simp only [List.mem_cons, List.not_mem_nil, or_false] at h
    rcases h with h | h | h | h | h | h
    · exact absurd h (by decide)
    · exact absurd h (by decide)
    all_goals exact hexDigit_ne_newline _ h.symm
  · simp only [List.mem_cons, List.not_mem_nil, or_false] at h
    rcases h with h | h | h | h | h | h | h | h | h | h
    · exact absurd h (by decide)
    · exact absurd h (by decide)
    all_goals exact hexDigit_ne_newline _ h.symm
  · rw [List.mem_singleton] at h
    exact h3 h.symm

theorem percent_notMem_escapeChar {c : Char} (hc : c ≠ '%') : '%' ∉ pyUnicodeEscapeChar c := by
  intro h
  simp only [pyUnicodeEscapeChar] at h
  split_ifs at h with h1 h2 h3 h4 h5 h6 h7
  · exact absurd h (by decide)
  · exact absurd h (by decide)
  · exact absurd h (by decide)
  · exact absurd h (by decide)
  · simp only [List.mem_cons, List.not_mem_nil, or_false] at h
    rcases h with h | h | h | h
    · exact absurd h (by decide)
    · exact absurd h (by decide)
    · exact hexDigit_ne_percent _ h.symm
    · exact hexDigit_ne_percent _ h.symm
  · simp only [List.mem_cons, List.not_mem_nil, or_false] at h
    rcases h with h | h | h | h | h | h
    · exact absurd h (by decide)
    · exact absurd h (by decide)
    all_goals exact hexDigit_ne_percent _ h.symm
  · simp only [List.mem_cons, List.not_mem_nil, or_false] at h
    rcases h with h | h | h | h | h | h | h | h | h | h
    · exact absurd h (by decide)
    · exact absurd h (by decide)
    all_goals exact hexDigit_ne_percent _ h.symm
  · rw [List.mem_singleton] at h
    exact hc h.symm

theorem newline_notMem_pyUnicodeEscape (value : List Char) : '\n' ∉ pyUnicodeEscape value := by
  intro h
  obtain ⟨x, _, hfx⟩ := mem_listConcatMap.mp h
  exact newline_notMem_escapeChar x hfx

theorem percent_notMem_pyUnicodeEscape {value : List Char} (hval : '%' ∉ value) :
    '%' ∉ pyUnicodeEscape value := by
  intro h
  obtain ⟨x, hx, hfx⟩ := mem_listConcatMap.mp h
  exact percent_notMem_escapeChar (fun he => hval (he ▸ hx)) hfx

theorem newline_notMem_singleLineOf (value : List Char) : '\n' ∉ singleLineOf value := by
  intro h
  rcases mem_of_mem_replaceL h with h | h
  · exact absurd h (by decide)
  · exact newline_notMem_pyUnicodeEscape value h

theorem percent_notMem_singleLineOf {value : List Char} (hval : '%' ∉ value) :
    '%' ∉ singleLineOf value := by
  intro h
  rcases mem_of_mem_replaceL h with h | h
  · exact absurd h (by decide)
  · exact percent_notMem_pyUnicodeEscape hval h

theorem percent_notMem_multiLineOf {value : List Char} (hval : '%' ∉ value) :
    '%' ∉ multiLineOf value := by
  intro h
  rcases mem_of_mem_replaceL h with h | h
  · exact absurd h (by decide)
  · exact hval h

/-- The single-line placeholder has no occurrence inside the multi-line
placeholder followed by a `%`-free suffix (the two placeholders overlap only
at single `%` characters). -/
theorem single_notIn_multi_append {post : List Char} (hpost : '%' ∉ post) :
    containsSub singlePlaceholder (multiPlaceholder ++ post) = false := by
  have hstep : multiPlaceholder ++ post
      = '%' :: (strL "MULTI_LINE_VARIABLE" ++ '%' :: post) := rfl
  have hcontp : containsSub singlePlaceholder post = false :=
    containsSub_eq_false_of_missing (show ('%' : Char) ∈ singlePlaceholder by decide) hpost
  have hpref2 : isPref singlePlaceholder ('%' :: post) = false := by
    rw [show singlePlaceholder = '%' :: strL "SINGLE_LINE_VARIABLE%" from rfl, isPref_cons]
    rw [isPref_eq_false_of_missing (show ('%' : Char) ∈ strL "SINGLE_LINE_VARIABLE%" by decide) hpost]
    simp
  have htail : containsSub singlePlaceholder (strL "MULTI_LINE_VARIABLE" ++ '%' :: post)
      = false := by
    have h1 : containsSub singlePlaceholder (strL "MULTI_LINE_VARIABLE" ++ '%' :: post)
        = containsSub singlePlaceholder ('%' :: post) :=
      containsSub_append_of_head_notMem (by decide)
    rw [h1, containsSub_cons, hpref2, hcontp]
    rfl
  have hpref1 : isPref singlePlaceholder ('%' :: (strL "MULTI_LINE_VARIABLE" ++ '%' :: post))
      = false := by
    rw [show singlePlaceholder = '%' :: strL "SINGLE_LINE_VARIABLE%" from rfl, isPref_cons]
    rw [show (strL "MULTI_LINE_VARIABLE" ++ '%' :: post : List Char)
          = 'M' :: (strL "ULTI_LINE_VARIABLE" ++ '%' :: post) from rfl]
    rw [show (strL "SINGLE_LINE_VARIABLE%" : List Char)
          = 'S' :: strL "INGLE_LINE_VARIABLE%" from rfl, isPref_cons]
    rw [show (('S' : Char) == 'M') = false from rfl]
    simp
  rw [hstep, containsSub_cons, hpref1, htail]
  rfl

/-! ## Lemmas about the probing loop, aggregation and overall stats -/

theorem countP_add_countP_not (p : Test → Bool) (l : List Test) :
    l.countP p + l.countP (fun a => !(p a)) = l.length := by
  induction l with
  | nil => rfl
  | cons x xs ih =>
    by_cases hx : p x <;> simp [List.countP_cons, hx] <;> omega

theorem runLoop_eq (probe : List Char → Except PyExc Bool) (tests : List Test)
    (hR : ∀ t ∈ tests, containsSub readmeMarker t.test_file = false)
    (hOk : ∀ t ∈ tests, ∃ b, probe t.test_file = Except.ok b) :
    runLoop probe tests = Except.ok
      (tests.map (fun t => ⟨t, some (dval probe t.test_file)⟩),
       (tests.filter (fun t => dval probe t.test_file)).map (fun t => t.test_file),
       (tests.filter (fun t => !(dval probe t.test_file))).map (fun t => t.test_file)) := by
  induction tests with
  | nil => rfl
  | cons t ts ih =>
    have hRt : containsSub readmeMarker t.test_file = false := hR t (by simp)
    obtain ⟨b, hb⟩ := hOk t (by simp)
    have hd : dval probe t.test_file = b := by rw [dval, hb]
    have ihh := ih (fun x hx => hR x (List.mem_cons_of_mem t hx))
      (fun x hx => hOk x (List.mem_cons_of_mem t hx))
    cases b with
    | true => simp [runLoop, hRt, hb, ihh, List.filter_cons, List.map_cons, hd]
    | false => simp [runLoop, hRt, hb, ihh, List.filter_cons, List.map_cons, hd]

theorem sumTotal_bumpStat (d : Bool) (k : List Char) (acc : List (List Char × StatCounts)) :
    sumTotal (bumpStat d k acc) = sumTotal acc + 1 := by
  induction acc with
  | nil => cases d <;> rfl
  | cons p rest ih =>
    obtain ⟨k', c⟩ := p
    by_cases hk : k' = k
    · cases d <;> simp [bumpStat, hk, sumTotal] <;> omega
    · simp [bumpStat, hk, sumTotal, ih]
      omega

theorem aggregate_ok (rs : List TestR) :
    ∀ (ls ss : List (List Char × StatCounts)), (∀ r ∈ rs, r.detected ≠ none) →
      ∃ ls' ss', aggregate rs ls ss = Except.ok (ls', ss')
        ∧ sumTotal ls' = sumTotal ls + rs.length
        ∧ sumTotal ss' = sumTotal ss + rs.length := by
  induction rs with
  | nil => intro ls ss _; exact ⟨ls, ss, rfl, by simp, by simp⟩
  | cons r rs ih =>
    intro ls ss h
    obtain ⟨d, hd⟩ : ∃ d, r.detected = some d := by
      cases hr : r.detected with
      | none => exact absurd hr (h r (by simp))
      | some d => exact ⟨d, rfl⟩
    obtain ⟨ls', ss', he, h1, h2⟩ := ih (bumpStat d r.base.file_type ls)
      (bumpStat d (secretKey r.base) ss) (fun x hx => h x (List.mem_cons_of_mem r hx))
    refine ⟨ls', ss', ?_, ?_, ?_⟩
    · simp only [aggregate, hd]
      exact he
    · rw [h1, sumTotal_bumpStat]
      simp only [List.length_cons]
      omega
    · rw [h2, sumTotal_bumpStat]
      simp only [List.length_cons]
      omega

/-- Evaluation of `check` from the results of its two loops. -/
theorem check_eq_of_loops {probe : List Char → Except PyExc Bool} {tests : List Test}
    {rs : List TestR} {ps fs : List (List Char)} {ls ss : List (List Char × StatCounts)}
    (hrun : runLoop probe tests = Except.ok (rs, ps, fs))
    (hagg : aggregate rs [] [] = Except.ok (ls, ss))
    (hne0 : ¬(ps.length + fs.length = 0)) :
    check probe tests = Except.ok
      ⟨ls, ss, ps.length, fs.length, ps.length + fs.length,
        100 * (ps.length : ℚ) / ((ps.length + fs.length : Nat) : ℚ)⟩ := by
  unfold check
  rw [hrun]
  dsimp only
  rw [hagg]
  dsimp only
  rw [if_neg hne0]

/-- Full characterization of a successful `check` run: every fixture path free
of `README.md`, every probe returning a verdict, and at least one fixture. -/
theorem check_spec (probe : List Char → Except PyExc Bool) (tests : List Test)
    (hR : ∀ t ∈ tests, containsSub readmeMarker t.test_file = false)
    (hOk : ∀ t ∈ tests, ∃ b, probe t.test_file = Except.ok b)
    (hne : tests ≠ []) :
    ∃ out, check probe tests = Except.ok out
      ∧ out.passed = tests.countP (fun t => dval probe t.test_file)
      ∧ out.failed = tests.countP (fun t => !(dval probe t.test_file))
      ∧ out.total = out.passed + out.failed
      ∧ out.success_rate = 100 * (out.passed : ℚ) / (out.total : ℚ)
      ∧ sumTotal out.langStats = tests.length
      ∧ sumTotal out.secretStats = tests.length
      ∧ out.total = tests.length := by
  have hrun := runLoop_eq probe tests hR hOk
  have hdet : ∀ r ∈ tests.map (fun t => (⟨t, some (dval probe t.test_file)⟩ : TestR)),
      r.detected ≠ none := by
    intro r hr
    obtain ⟨t, _, rfl⟩ := List.mem_map.mp hr
    simp
  obtain ⟨ls', ss', hagg, h1, h2⟩ := aggregate_ok _ [] [] hdet
  have hps : ((tests.filter (fun t => dval probe t.test_file)).map
      (fun t => t.test_file)).length = tests.countP (fun t => dval probe t.test_file) := by
    rw [List.length_map, ← List.countP_eq_length_filter]
  have hfs : ((tests.filter (fun t => !(dval probe t.test_file))).map
      (fun t => t.test_file)).length = tests.countP (fun t => !(dval probe t.test_file)) := by
    rw [List.length_map, ← List.countP_eq_length_filter]
  have htot : ((tests.filter (fun t => dval probe t.test_file)).map
        (fun t => t.test_file)).length
      + ((tests.filter (fun t => !(dval probe t.test_file))).map
        (fun t => t.test_file)).length = tests.length := by
    rw [hps, hfs]
    exact countP_add_countP_not _ tests
  have hne0 : ¬(((tests.filter (fun t => dval probe t.test_file)).map
        (fun t => t.test_file)).length
      + ((tests.filter (fun t => !(dval probe t.test_file))).map
        (fun t => t.test_file)).length = 0) := by
    rw [htot]
    intro h0
    exact hne (List.eq_nil_of_length_eq_zero h0)
  have hcheck := check_eq_of_loops hrun hagg hne0
  refine ⟨_, hcheck, hps, hfs, rfl, rfl, ?_, ?_, htot⟩
  · rw [h1, List.length_map]
    simp [sumTotal]
  · rw [h2, List.length_map]
    simp [sumTotal]

/-! ## Lemmas about the probe state machine and teardown -/

theorem dispatch_getLast (rH rO : Option PyExc) (e : PyExc) (tr : List GitOp) (b : Bool)
    (h : (dispatch rH rO e tr).fst = Except.ok b) :
    (dispatch rH rO e tr).snd.getLast? = some GitOp.remove := by
  cases e <;> cases rH <;> cases rO <;> simp_all [dispatch, List.getLast?_concat]

/-! ## Claim theorems -/

/-- Claim C1 (code bug): the claim says sandbox teardown (`_delete_test_branch`)
runs exactly once on every exit path of `check`, including when a probe raises
partway through the probing loop.  In the code the teardown call sits directly
after the loop with no `try`/`finally`, so a probe exception skips it entirely:
with a probe that raises, the teardown count is `0`; it is `1` only on the
non-raising path. -/
theorem c1_teardown_skipped_on_probe_exception :
    checkTeardownCount probeRaises [tNormal] = 0
  ∧ checkTeardownCount probeAllTrue [tNormal] = 1 :=
  ⟨rfl, rfl⟩

/-- Claim C2 (code bug): the claim says the success-rate computation is guarded
against zero probed fixtures.  In the code `100 * stats["passed"] /
stats["total"]` is unguarded Python division: with an empty fixture list both
counts are `0` and `check` raises `ZeroDivisionError`. -/
theorem c2_success_rate_division_unguarded :
    check probeAllTrue [] = Except.error CheckErr.zeroDivisionError := rfl

/-- Claim C3 counterexample: with a fixture whose generated path contains
`README.md`, the probing loop skips it but the aggregation loop still visits it
and raises a `KeyError` on the missing `detected` key — there is no summary at
all, so the claimed totals identity fails as stated. -/
theorem c3_counterexample :
    containsSub readmeMarker tReadme.test_file = true
  ∧ check probeAllTrue [tReadme, tNormal] = Except.error CheckErr.keyError :=
  ⟨by decide, rfl⟩

/-- Claim C3 (amended): when no generated fixture path contains `README.md`
(so the probing loop probes every fixture), probes return verdicts and at least
one fixture exists, aggregation succeeds and the per-file-type and
per-secret-type bucket totals each sum to the overall total, which equals the
number of fixtures.  When some path does contain `README.md`, the aggregation
loop does not apply the loop's exclusion predicate but raises a `KeyError`
instead (see the counterexample). -/
theorem c3_totals_agree (probe : List Char → Except PyExc Bool) (tests : List Test)
    (hR : ∀ t ∈ tests, containsSub readmeMarker t.test_file = false)
    (hOk : ∀ t ∈ tests, ∃ b, probe t.test_file = Except.ok b)
    (hne : tests ≠ []) :
    ∃ out, check probe tests = Except.ok out
      ∧ sumTotal out.langStats = out.total
      ∧ sumTotal out.secretStats = out.total
      ∧ out.total = tests.length := by
  obtain ⟨out, h0, _, _, _, _, hl, hs, ht⟩ := check_spec probe tests hR hOk hne
  exact ⟨out, h0, by rw [hl, ht], by rw [hs, ht], ht⟩

/-- Witness for C3: a concrete one-fixture run where the bucket totals and the
overall total agree. -/
theorem c3_witness :
    (∀ t ∈ [tNormal], containsSub readmeMarker t.test_file = false)
  ∧ ([tNormal] : List Test) ≠ []
  ∧ ∃ out, check probeAllTrue [tNormal] = Except.ok out
      ∧ sumTotal out.langStats = out.total
      ∧ sumTotal out.secretStats = out.total
      ∧ out.total = 1 := by
  refine ⟨by decide, by decide, ?_⟩
  obtain ⟨out, h0, h1, h2, h3⟩ := c3_totals_agree probeAllTrue [tNormal]
    (by decide) (fun t _ => ⟨true, rfl⟩) (by decide)
  exact ⟨out, h0, h1, h2, h3⟩

/-- Claim C4 counterexample: a commit failure of a class outside the three
handled exception classes propagates out of `_test_commit`; the probe returns
no boolean verdict, refuting "any failure during a single fixture's probe is
fully contained". -/
theorem c4_counterexample :
    (testCommit ⟨none, some PyExc.other, none, none, none, none⟩).fst
        = Except.error PyExc.other
  ∧ ∀ b, (testCommit ⟨none, some PyExc.other, none, none, none, none⟩).fst ≠ Except.ok b :=
  ⟨rfl, fun _ h => Except.noConfusion h⟩

/-- Claim C4 (amended): when every exception raised inside the probe's `try`
block is of one of the three handled classes (`HookExecutionError`,
`GitCommandError`, `FileNotFoundError`) and the handlers' own unstage calls do
not raise, `_test_commit` returns exactly one boolean verdict: `true` iff the
first raised exception is a `HookExecutionError`, `false` when the commit
succeeded or a generic command / missing-path error occurred.  Exceptions of
other classes, or failures of the unstage call inside a handler, propagate. -/
theorem c4_probe_classification (env : ProbeEnv)
    (h1 : firstTryRaised env ≠ some PyExc.other)
    (h2 : env.removeHook = none) (h3 : env.removeOther = none) :
    (testCommit env).fst = Except.ok (expectedVerdict env) := by
  rcases env with ⟨a, c, r, rt, rh, ro⟩
  obtain rfl : rh = none := h2
  obtain rfl : ro = none := h3
  cases a with
  | some e => cases e <;> first | rfl | exact absurd rfl h1
  | none =>
    cases c with
    | some e => cases e <;> first | rfl | exact absurd rfl h1
    | none =>
      cases r with
      | some e => cases e <;> first | rfl | exact absurd rfl h1
      | none =>
        cases rt with
        | some e => cases e <;> first | rfl | exact absurd rfl h1
        | none => rfl

/-- Witness for C4: the hook blocks the commit and the probe returns `true`. -/
theorem c4_witness :
    firstTryRaised ⟨some PyExc.hookExecutionError, none, none, none, none, none⟩
        ≠ some PyExc.other
  ∧ (testCommit ⟨some PyExc.hookExecutionError, none, none, none, none, none⟩).fst
        = Except.ok true := by
  refine ⟨by decide, ?_⟩
  exact c4_probe_classification ⟨some PyExc.hookExecutionError, none, none, none, none, none⟩
    (by decide) rfl rfl

/-- Claim C5 counterexample: for source `sourceA`, secret type `aws_key` and a
`.java` template, the generated path does not contain the claimed PascalCase
join `CommitSourceAAwsKey`: Python `title()` lower-cases the interior capital,
producing `CommitSourceaAwsKey`. -/
theorem c5_counterexample :
    containsSub (strL "CommitSourceAAwsKey")
      (generate_temp_file_name (strL "sourceA") (strL "aws_key") (strL "example.java")) = false
  ∧ generate_temp_file_name (strL "sourceA") (strL "aws_key") (strL "example.java")
      = strL "commits/CommitSourceaAwsKeyexample.java" :=
  ⟨by decide, by decide⟩

/-- Claim C5 (amended): the fixture path is built by tokenizing
`commit_<source>_<secretType>` on `-`, `_`, `.` and space; for a `.java`
template the tokens are joined with no separator, each token title-cased in
Python's sense (first letter upper-case, subsequent letters of a letter run
lower-case — interior capitals are folded), followed by the template base name;
otherwise they are joined with `_` and lower-cased, followed by `_` and the
base name; the extension is appended and the path prefixed with `commits/`.
In particular `sourceA`/`aws_key` yields `commits/CommitSourceaAwsKeyexample.java`
for template `example.java` and `commits/commit_sourcea_aws_key_example.py` for
`example.py`. -/
theorem c5_path_generation :
    generate_temp_file_name (strL "sourceA") (strL "aws_key") (strL "example.java")
        = strL "commits/CommitSourceaAwsKeyexample.java"
  ∧ generate_temp_file_name (strL "sourceA") (strL "aws_key") (strL "example.py")
        = strL "commits/commit_sourcea_aws_key_example.py"
  ∧ (∀ source st base, (∀ c ∈ base, sepChar c = false) →
      generate_temp_file_name source st (base ++ strL ".java")
        = strL "commits/" ++ pascalJoin (tokenizeName source st) ++ base ++ strL ".java")
  ∧ (∀ source st base, (∀ c ∈ base, sepChar c = false) →
      generate_temp_file_name source st (base ++ strL ".py")
        = strL "commits/" ++ snakeJoin (tokenizeName source st) ++ '_' :: (base ++ strL ".py")) :=
  ⟨by decide, by decide, generate_java, generate_py⟩

/-- Witness for C5: the general `.java` clause applied at a concrete input. -/
theorem c5_witness :
    (∀ c ∈ strL "example", sepChar c = false)
  ∧ generate_temp_file_name (strL "sourceA") (strL "aws_key") (strL "example" ++ strL ".java")
      = strL "commits/" ++ pascalJoin (tokenizeName (strL "sourceA") (strL "aws_key"))
          ++ strL "example" ++ strL ".java" := by
  refine ⟨by decide, ?_⟩
  exact c5_path_generation.2.2.1 (strL "sourceA") (strL "aws_key") (strL "example") (by decide)

/-- Claim C6: on every path on which `_test_commit` returns (hook-blocked,
commit-succeeded, other handled failure), the last git operation performed is
the unstage (`index.remove`) of the fixture's file, so the index is clean
between consecutive probes. -/
theorem c6_unstaged_before_return (env : ProbeEnv) (b : Bool)
    (h : (testCommit env).fst = Except.ok b) :
    (testCommit env).snd.getLast? = some GitOp.remove := by
  rcases env with ⟨a, c, r, rt, rh, ro⟩
  cases a with
  | some e => exact dispatch_getLast rh ro e [] b h
  | none =>
    cases c with
    | some e => exact dispatch_getLast rh ro e [GitOp.add] b h
    | none =>
      cases r with
      | some e => exact dispatch_getLast rh ro e [GitOp.add, GitOp.commit] b h
      | none =>
        cases rt with
        | some e =>
          exact dispatch_getLast rh ro e [GitOp.add, GitOp.commit, GitOp.rollback] b h
        | none => rfl

/-- Witness for C6: the commit-succeeded path returns `false` with the unstage
as its last operation. -/
theorem c6_witness :
    (testCommit ⟨none, none, none, none, none, none⟩).fst = Except.ok false
  ∧ (testCommit ⟨none, none, none, none, none, none⟩).snd.getLast? = some GitOp.remove := by
  refine ⟨rfl, ?_⟩
  exact c6_unstaged_before_return ⟨none, none, none, none, none, none⟩ false rfl

/-- Claim C7 counterexample: a secret value that is itself the single-line
placeholder literal survives rendering verbatim, so the post-condition
"rendered content contains neither placeholder literal" fails for some template
contents and secret values. -/
theorem c7_counterexample :
    containsSub singlePlaceholder (renderTemplate singlePlaceholder singlePlaceholder) = true := by
  decide

/-- Claim C7 (amended): for a template of the shape
`pre ++ %SINGLE_LINE_VARIABLE% ++ mid ++ %MULTI_LINE_VARIABLE% ++ post` in
which `pre`, `mid`, `post` and the secret value contain no `%` character, the
rendered content replaces the single-line placeholder by the backslash-unicode
escaped, quote-escaped value and the multi-line placeholder by the value with
only quotes escaped, and contains neither placeholder literal afterwards;
moreover, for every value the single-line form contains no raw newline
character.  (Without the `%`-freeness restriction the post-condition can fail:
see the counterexample.) -/
theorem c7_render_amended (pre mid post value : List Char)
    (hpre : '%' ∉ pre) (hmid : '%' ∉ mid) (hpost : '%' ∉ post) (hval : '%' ∉ value) :
    renderTemplate (pre ++ singlePlaceholder ++ mid ++ multiPlaceholder ++ post) value
        = pre ++ singleLineOf value ++ mid ++ multiLineOf value ++ post
  ∧ containsSub singlePlaceholder
      (renderTemplate (pre ++ singlePlaceholder ++ mid ++ multiPlaceholder ++ post) value)
      = false
  ∧ containsSub multiPlaceholder
      (renderTemplate (pre ++ singlePlaceholder ++ mid ++ multiPlaceholder ++ post) value)
      = false
  ∧ '\n' ∉ singleLineOf value := by
  have hsingle : '%' ∉ singleLineOf value := percent_notMem_singleLineOf hval
  have hmulti : '%' ∉ multiLineOf value := percent_notMem_multiLineOf hval
  have e1 : replaceL singlePlaceholder (singleLineOf value)
      (pre ++ singlePlaceholder ++ mid ++ multiPlaceholder ++ post)
      = pre ++ singleLineOf value ++ mid ++ multiPlaceholder ++ post := by
    have a1 : pre ++ singlePlaceholder ++ mid ++ multiPlaceholder ++ post
        = pre ++ (singlePlaceholder ++ (mid ++ (multiPlaceholder ++ post))) := by
      simp [List.append_assoc]
    have h1 : replaceL singlePlaceholder (singleLineOf value)
        (pre ++ (singlePlaceholder ++ (mid ++ (multiPlaceholder ++ post))))
        = pre ++ replaceL singlePlaceholder (singleLineOf value)
            (singlePlaceholder ++ (mid ++ (multiPlaceholder ++ post))) :=
      replaceL_append_of_head_notMem _ hpre
    have h2 : replaceL singlePlaceholder (singleLineOf value)
        (singlePlaceholder ++ (mid ++ (multiPlaceholder ++ post)))
        = singleLineOf value ++ replaceL singlePlaceholder (singleLineOf value)
            (mid ++ (multiPlaceholder ++ post)) :=
      replaceL_append_self _ _
    have h3 : containsSub singlePlaceholder (mid ++ (multiPlaceholder ++ post)) = false := by
      have hm : containsSub singlePlaceholder (mid ++ (multiPlaceholder ++ post))
          = containsSub singlePlaceholder (multiPlaceholder ++ post) :=
        containsSub_append_of_head_notMem hmid
      rw [hm]
      exact single_notIn_multi_append hpost
    have h4 : replaceL singlePlaceholder (singleLineOf value)
        (mid ++ (multiPlaceholder ++ post)) = mid ++ (multiPlaceholder ++ post) :=
      replaceL_of_not_contains _ h3
    rw [a1, h1, h2, h4]
    simp [List.append_assoc]
  have e2 : replaceL multiPlaceholder (multiLineOf value)
      (pre ++ singleLineOf value ++ mid ++ multiPlaceholder ++ post)
      = pre ++ singleLineOf value ++ mid ++ multiLineOf value ++ post := by
    have hfree : '%' ∉ pre ++ singleLineOf value ++ mid := by
      intro h
      rcases List.mem_append.mp h with h | h
      · rcases List.mem_append.mp h with h | h
        · exact hpre h
        · exact hsingle h
      · exact hmid h
    have a2 : pre ++ singleLineOf value ++ mid ++ multiPlaceholder ++ post
        = (pre ++ singleLineOf value ++ mid) ++ (multiPlaceholder ++ post) := by
      simp [List.append_assoc]
    have h1 : replaceL multiPlaceholder (multiLineOf value)
        ((pre ++ singleLineOf value ++ mid) ++ (multiPlaceholder ++ post))
        = (pre ++ singleLineOf value ++ mid)
            ++ replaceL multiPlaceholder (multiLineOf value) (multiPlaceholder ++ post) :=
      replaceL_append_of_head_notMem _ hfree
    have h2 : replaceL multiPlaceholder (multiLineOf value) (multiPlaceholder ++ post)
        = multiLineOf value ++ replaceL multiPlaceholder (multiLineOf value) post :=
      replaceL_append_self _ _
    have h3 : replaceL multiPlaceholder (multiLineOf value) post = post :=
      replaceL_of_not_contains _
        (containsSub_eq_false_of_missing
          (show ('%' : Char) ∈ multiPlaceholder by decide) hpost)
    rw [a2, h1, h2, h3]
    simp [List.append_assoc]
  have hrender : renderTemplate
      (pre ++ singlePlaceholder ++ mid ++ multiPlaceholder ++ post) value
      = pre ++ singleLineOf value ++ mid ++ multiLineOf value ++ post := by
    show replaceL multiPlaceholder (multiLineOf value)
      (replaceL singlePlaceholder (singleLineOf value)
        (pre ++ singlePlaceholder ++ mid ++ multiPlaceholder ++ post)) = _
    rw [e1, e2]
  have hresfree : '%' ∉ pre ++ singleLineOf value ++ mid ++ multiLineOf value ++ post := by
    intro h
    rcases List.mem_append.mp h with h | h
    · rcases List.mem_append.mp h with h | h
      · rcases List.mem_append.mp h with h | h
        · rcases List.mem_append.mp h with h | h
          · exact hpre h
          · exact hsingle h
        · exact hmid h
      · exact hmulti h
    · exact hpost h
  refine ⟨hrender, ?_, ?_, newline_notMem_singleLineOf value⟩
  · rw [hrender]
    exact containsSub_eq_false_of_missing
      (show ('%' : Char) ∈ singlePlaceholder by decide) hresfree
  · rw [hrender]
    exact containsSub_eq_false_of_missing
      (show ('%' : Char) ∈ multiPlaceholder by decide) hresfree

/-- Witness for C7: a concrete template and a value with a quote and a newline. -/
theorem c7_witness :
    ('%' ∉ strL "a = \"") ∧ ('%' ∉ strL "\" b = \"") ∧ ('%' ∉ strL "\"")
  ∧ ('%' ∉ ['p', '\n', '\"'])
  ∧ (renderTemplate
        (strL "a = \"" ++ singlePlaceholder ++ strL "\" b = \"" ++ multiPlaceholder ++ strL "\"")
        ['p', '\n', '\"']
        = strL "a = \"" ++ singleLineOf ['p', '\n', '\"'] ++ strL "\" b = \""
            ++ multiLineOf ['p', '\n', '\"'] ++ strL "\""
      ∧ containsSub singlePlaceholder (renderTemplate
          (strL "a = \"" ++ singlePlaceholder ++ strL "\" b = \"" ++ multiPlaceholder ++ strL "\"")
          ['p', '\n', '\"']) = false
      ∧ containsSub multiPlaceholder (renderTemplate
          (strL "a = \"" ++ singlePlaceholder ++ strL "\" b = \"" ++ multiPlaceholder ++ strL "\"")
          ['p', '\n', '\"']) = false
      ∧ '\n' ∉ singleLineOf ['p', '\n', '\"']) := by
  refine ⟨by decide, by decide, by decide, by decide, ?_⟩
  exact c7_render_amended (strL "a = \"") (strL "\" b = \"") (strL "\"") ['p', '\n', '\"']
    (by decide) (by decide) (by decide) (by decide)

/-- Claim C8 (code bug): the claim says a failure in one teardown step is
logged and the remaining steps are still attempted.  `_delete_test_branch` has
no exception handling at all: when the ignore-file restore raises, the
branch-pointer reset and the branch deletion are never attempted. -/
theorem c8_teardown_step_failure_skips_rest :
    (deleteTestBranch ⟨some PyExc.gitCommandError, none, none⟩).fst
        = Except.error PyExc.gitCommandError
  ∧ (deleteTestBranch ⟨some PyExc.gitCommandError, none, none⟩).snd = [TdStep.restoreIgnore]
  ∧ TdStep.resetHead ∉ (deleteTestBranch ⟨some PyExc.gitCommandError, none, none⟩).snd
  ∧ TdStep.deleteBranch ∉ (deleteTestBranch ⟨some PyExc.gitCommandError, none, none⟩).snd
  ∧ (deleteTestBranch ⟨none, none, none⟩).snd
      = [TdStep.restoreIgnore, TdStep.resetHead, TdStep.deleteBranch] :=
  ⟨rfl, rfl, by decide, by decide, rfl⟩

/-- Claim C9: for every probed fixture set (no `README.md` paths, probes return
verdicts, at least one fixture), the overall summary satisfies
`passed = count(detected)`, `failed = count(not detected)`,
`total = passed + failed` and `success_rate = 100 * passed / total`. -/
theorem c9_overall_summary (probe : List Char → Except PyExc Bool) (tests : List Test)
    (hR : ∀ t ∈ tests, containsSub readmeMarker t.test_file = false)
    (hOk : ∀ t ∈ tests, ∃ b, probe t.test_file = Except.ok b)
    (hne : tests ≠ []) :
    ∃ out, check probe tests = Except.ok out
      ∧ out.passed = tests.countP (fun t => dval probe t.test_file)
      ∧ out.failed = tests.countP (fun t => !(dval probe t.test_file))
      ∧ out.total = out.passed + out.failed
      ∧ out.success_rate = 100 * (out.passed : ℚ) / (out.total : ℚ) := by
  obtain ⟨out, h0, h1, h2, h3, h4, _, _, _⟩ := check_spec probe tests hR hOk hne
  exact ⟨out, h0, h1, h2, h3, h4⟩

/-- Witness for C9: with four fixtures of which exactly three are detected, the
summary is passed 3, failed 1, total 4, success rate 75.0. -/
theorem c9_witness :
    ∃ out, check probe3of4 tests4 = Except.ok out
      ∧ out.passed = 3 ∧ out.failed = 1 ∧ out.total = 4 ∧ out.success_rate = 75 := by
  obtain ⟨out, h0, h1, h2, h3, h4⟩ := c9_overall_summary probe3of4 tests4
    (by decide) (fun t _ => ⟨_, rfl⟩) (by decide)
  have hp : out.passed = 3 := by rw [h1]; decide
  have hf : out.failed = 1 := by rw [h2]; decide
  have ht : out.total = 4 := by rw [h3, hp, hf]
  refine ⟨out, h0, hp, hf, ht, ?_⟩
  rw [h4, hp, ht]
  norm_num

/-- Claim C10: `cleanup` removes exactly the files under `commits/` whose path
does not contain the substring `README.md`; the test is a substring match, not
an exact-filename match, so a generated fixture such as the one produced for a
template named `README.md.py` survives cleanup, and the probing loop likewise
skips it (it ends with no verdict and no status entry). -/
theorem c10_cleanup_substring :
    (∀ (files : List (List Char)) (f : List Char),
        f ∈ cleanupRemoved files ↔ f ∈ files ∧ containsSub readmeMarker f = false)
  ∧ tReadme.test_file = generate_temp_file_name (strL "src") (strL "key") (strL "README.md.py")
  ∧ containsSub readmeMarker tReadme.test_file = true
  ∧ tReadme.test_file ≠ strL "commits/README.md"
  ∧ (∀ probe, runLoop probe [tReadme] = Except.ok ([⟨tReadme, none⟩], [], [])) := by
  refine ⟨?_, by decide, by decide, by decide, fun probe => rfl⟩
  intro files f
  simp [cleanupRemoved, List.mem_filter]

end DetectCheck
